import Mathlib

/-!
Verification development for the in-memory relational store of the
task-tracking server (`src/database.ts`) and the `delete_tag` tool handler
(`src/mcp/entities/tag/tools.ts`).

Modelling conventions:
* A JavaScript `Map<string, E>` is modelled as an association list
  `List (String × E)` in insertion order.  `Map.get` is `alistGet`,
  `Map.set` is `alistSet` (replace in place when the key exists, append
  otherwise), `Map.delete` is `alistDel` (returns whether the key existed).
* `Date` values are modelled as `Nat` (milliseconds since epoch, the value
  of `Date.getTime()`); `new Date()` becomes an explicit `now : Nat`
  parameter threaded into every operation that reads the clock.
* The generated id `` `user-${Date.now()}-${Math.random()...}` `` is
  nondeterministic; `create*` therefore takes the generated id as an
  explicit parameter.
* TypeScript string-union fields (`role`, `status`, `priority`) are kept as
  `String`, matching their runtime representation.
* A `Partial<Omit<E, 'id' | 'createdAt'>>` update object is modelled as a
  record of `Option` fields (`none` = key absent); the spread
  `{...old, ...updates}` becomes `Option.getD` per field.  The `updatedAt`
  key is omitted from the update records because the implementation
  overwrites it unconditionally after the spread (and `Tag` has none).
-/

namespace TaskStore

unseal List.merge List.mergeSort

/-- Source: `Map.get k`: first binding with the given key. -/
def alistGet {α : Type} (l : List (String × α)) (k : String) : Option α :=
  (l.find? (fun p => p.1 == k)).map (fun p => p.2)

/-- Source: `Map.set k v`: replace the binding in place when the key exists,
append at the end otherwise. -/
def alistSet {α : Type} (l : List (String × α)) (k : String) (v : α) :
    List (String × α) :=
  match l with
  | [] => [(k, v)]
  | p :: rest => if p.1 == k then (k, v) :: rest else p :: alistSet rest k v

/-- Source: `Map.delete k`: whether the key existed, and the map without it. -/
def alistDel {α : Type} (l : List (String × α)) (k : String) :
    Bool × List (String × α) :=
  (l.any (fun p => p.1 == k), l.filter (fun p => p.1 != k))

/-- Source: `interface User` from `src/types.ts`. -/
structure User where
  id : String
  name : String
  email : String
  role : String
  createdAt : Nat
  updatedAt : Nat
deriving Repr, DecidableEq

/-- Source: `interface Project` from `src/types.ts`. -/
structure Project where
  id : String
  name : String
  description : String
  ownerId : String
  status : String
  createdAt : Nat
  updatedAt : Nat
deriving Repr, DecidableEq

/-- Source: `interface Task` from `src/types.ts`. -/
structure Task where
  id : String
  title : String
  description : String
  projectId : String
  assigneeId : Option String
  status : String
  priority : String
  dueDate : Option Nat
  tags : List String
  createdAt : Nat
  updatedAt : Nat
deriving Repr, DecidableEq

/-- Source: `interface Tag` from `src/types.ts` (no `updatedAt`). -/
structure Tag where
  id : String
  name : String
  color : String
  createdAt : Nat
deriving Repr, DecidableEq

/-- Source: `interface Comment` from `src/types.ts`. -/
structure Comment where
  id : String
  taskId : String
  userId : String
  content : String
  createdAt : Nat
  updatedAt : Nat
deriving Repr, DecidableEq

/-- The `Database` record owned by `InMemoryDatabase`: five `Map`s. -/
structure Database where
  users : List (String × User)
  projects : List (String × Project)
  tasks : List (String × Task)
  tags : List (String × Tag)
  comments : List (String × Comment)
deriving Repr, DecidableEq

/-- Source: `Map` well-formedness, maintained by `InMemoryDatabase` by construction:
keys are distinct and every binding's key equals the stored record's `id`
(every `set(id, e)` in the source uses `e.id` as the key). -/
def WF (db : Database) : Prop :=
  (db.users.map (fun p => p.1)).Nodup ∧
  (∀ p ∈ db.users, p.1 = p.2.id) ∧
  (db.projects.map (fun p => p.1)).Nodup ∧
  (∀ p ∈ db.projects, p.1 = p.2.id) ∧
  (db.tasks.map (fun p => p.1)).Nodup ∧
  (∀ p ∈ db.tasks, p.1 = p.2.id) ∧
  (db.tags.map (fun p => p.1)).Nodup ∧
  (∀ p ∈ db.tags, p.1 = p.2.id) ∧
  (db.comments.map (fun p => p.1)).Nodup ∧
  (∀ p ∈ db.comments, p.1 = p.2.id)

instance (db : Database) : Decidable (WF db) := by
  unfold WF; infer_instance

/-! ## Create inputs: `Omit<E, 'id' | 'createdAt' | 'updatedAt'>` -/

/-- Caller-supplied fields of `createUser`. -/
structure UserInput where
  name : String
  email : String
  role : String
deriving Repr, DecidableEq

/-- Caller-supplied fields of `createProject`. -/
structure ProjectInput where
  name : String
  description : String
  ownerId : String
  status : String
deriving Repr, DecidableEq

/-- Caller-supplied fields of `createTask`. -/
structure TaskInput where
  title : String
  description : String
  projectId : String
  assigneeId : Option String
  status : String
  priority : String
  dueDate : Option Nat
  tags : List String
deriving Repr, DecidableEq

/-- Caller-supplied fields of `createTag`. -/
structure TagInput where
  name : String
  color : String
deriving Repr, DecidableEq

/-- Caller-supplied fields of `createComment`. -/
structure CommentInput where
  taskId : String
  userId : String
  content : String
deriving Repr, DecidableEq

/-! ## Update inputs: `Partial<Omit<E, 'id' | 'createdAt'>>` -/

/-- Partial update for `updateUser`; `none` = key absent from the object. -/
structure UserUpdate where
  name : Option String := none
  email : Option String := none
  role : Option String := none
deriving Repr, DecidableEq

/-- Partial update for `updateProject`. -/
structure ProjectUpdate where
  name : Option String := none
  description : Option String := none
  ownerId : Option String := none
  status : Option String := none
deriving Repr, DecidableEq

/-- Partial update for `updateTask`.  Nullable fields are
`Option (Option _)`: outer `none` = key absent, inner value = the new
(possibly null) field value. -/
structure TaskUpdate where
  title : Option String := none
  description : Option String := none
  projectId : Option String := none
  assigneeId : Option (Option String) := none
  status : Option String := none
  priority : Option String := none
  dueDate : Option (Option Nat) := none
  tags : Option (List String) := none
deriving Repr, DecidableEq

/-- Partial update for `updateTag`. -/
structure TagUpdate where
  name : Option String := none
  color : Option String := none
deriving Repr, DecidableEq

/-- Partial update for `updateComment`. -/
structure CommentUpdate where
  taskId : Option String := none
  userId : Option String := none
  content : Option String := none
deriving Repr, DecidableEq

/-! ## User operations -/

/-- Source: `createUser`: spread the input, assign id and timestamps, store. -/
def createUser (db : Database) (input : UserInput) (id : String) (now : Nat) :
    User × Database :=
  let newUser : User :=
    { id := id, name := input.name, email := input.email, role := input.role,
      createdAt := now, updatedAt := now }
  (newUser, { db with users := alistSet db.users id newUser })

/-- Source: `getUser`. -/
def getUser (db : Database) (id : String) : Option User :=
  alistGet db.users id

/-- Source: `getAllUsers`: `Array.from(map.values())` in insertion order. -/
def getAllUsers (db : Database) : List User :=
  db.users.map (fun p => p.2)

/-- Source: `{...user, ...updates, updatedAt: new Date()}`. -/
def applyUserUpdate (u : User) (upd : UserUpdate) (now : Nat) : User :=
  { u with
    name := upd.name.getD u.name,
    email := upd.email.getD u.email,
    role := upd.role.getD u.role,
    updatedAt := now }

/-- Source: `updateUser`: `null` when the id is unknown, else merge and persist. -/
def updateUser (db : Database) (id : String) (upd : UserUpdate) (now : Nat) :
    Option User × Database :=
  match alistGet db.users id with
  | none => (none, db)
  | some u =>
    let updated := applyUserUpdate u upd now
    (some updated, { db with users := alistSet db.users id updated })

/-- Source: `deleteUser`: plain `Map.delete`, no cascade. -/
def deleteUser (db : Database) (id : String) : Bool × Database :=
  let (b, users) := alistDel db.users id
  (b, { db with users := users })

/-! ## Project operations -/

/-- Source: `createProject`. -/
def createProject (db : Database) (input : ProjectInput) (id : String)
    (now : Nat) : Project × Database :=
  let newProject : Project :=
    { id := id, name := input.name, description := input.description,
      ownerId := input.ownerId, status := input.status,
      createdAt := now, updatedAt := now }
  (newProject, { db with projects := alistSet db.projects id newProject })

/-- Source: `getProject`. -/
def getProject (db : Database) (id : String) : Option Project :=
  alistGet db.projects id

/-- Source: `getAllProjects`. -/
def getAllProjects (db : Database) : List Project :=
  db.projects.map (fun p => p.2)

/-- Source: `getProjectsByOwner`. -/
def getProjectsByOwner (db : Database) (ownerId : String) : List Project :=
  (getAllProjects db).filter (fun p => p.ownerId == ownerId)

/-- Source: `{...project, ...updates, updatedAt: new Date()}`. -/
def applyProjectUpdate (p : Project) (upd : ProjectUpdate) (now : Nat) :
    Project :=
  { p with
    name := upd.name.getD p.name,
    description := upd.description.getD p.description,
    ownerId := upd.ownerId.getD p.ownerId,
    status := upd.status.getD p.status,
    updatedAt := now }

/-- Source: `updateProject`. -/
def updateProject (db : Database) (id : String) (upd : ProjectUpdate)
    (now : Nat) : Option Project × Database :=
  match alistGet db.projects id with
  | none => (none, db)
  | some p =>
    let updated := applyProjectUpdate p upd now
    (some updated, { db with projects := alistSet db.projects id updated })

/-! ## Task operations -/

/-- Source: `createTask`. -/
def createTask (db : Database) (input : TaskInput) (id : String) (now : Nat) :
    Task × Database :=
  let newTask : Task :=
    { id := id, title := input.title, description := input.description,
      projectId := input.projectId, assigneeId := input.assigneeId,
      status := input.status, priority := input.priority,
      dueDate := input.dueDate, tags := input.tags,
      createdAt := now, updatedAt := now }
  (newTask, { db with tasks := alistSet db.tasks id newTask })

/-- Source: `getTask`. -/
def getTask (db : Database) (id : String) : Option Task :=
  alistGet db.tasks id

/-- Source: `getAllTasks`. -/
def getAllTasks (db : Database) : List Task :=
  db.tasks.map (fun p => p.2)

/-- Source: `getTasksByProject`. -/
def getTasksByProject (db : Database) (projectId : String) : List Task :=
  (getAllTasks db).filter (fun t => t.projectId == projectId)

/-- Source: `getTasksByAssignee`. -/
def getTasksByAssignee (db : Database) (assigneeId : String) : List Task :=
  (getAllTasks db).filter (fun t => t.assigneeId == some assigneeId)

/-- Source: `getTasksByStatus`. -/
def getTasksByStatus (db : Database) (status : String) : List Task :=
  (getAllTasks db).filter (fun t => t.status == status)

/-- Source: `getTasksByTag`: membership test against the task's tag list. -/
def getTasksByTag (db : Database) (tagId : String) : List Task :=
  (getAllTasks db).filter (fun t => t.tags.contains tagId)

/-- Source: `{...task, ...updates, updatedAt: new Date()}`. -/
def applyTaskUpdate (t : Task) (upd : TaskUpdate) (now : Nat) : Task :=
  { t with
    title := upd.title.getD t.title,
    description := upd.description.getD t.description,
    projectId := upd.projectId.getD t.projectId,
    assigneeId := upd.assigneeId.getD t.assigneeId,
    status := upd.status.getD t.status,
    priority := upd.priority.getD t.priority,
    dueDate := upd.dueDate.getD t.dueDate,
    tags := upd.tags.getD t.tags,
    updatedAt := now }

/-- Source: `updateTask`. -/
def updateTask (db : Database) (id : String) (upd : TaskUpdate) (now : Nat) :
    Option Task × Database :=
  match alistGet db.tasks id with
  | none => (none, db)
  | some t =>
    let updated := applyTaskUpdate t upd now
    (some updated, { db with tasks := alistSet db.tasks id updated })

/-! ## Comment operations (reads needed by `deleteTask`) -/

/-- Source: `createComment`. -/
def createComment (db : Database) (input : CommentInput) (id : String)
    (now : Nat) : Comment × Database :=
  let newComment : Comment :=
    { id := id, taskId := input.taskId, userId := input.userId,
      content := input.content, createdAt := now, updatedAt := now }
  (newComment, { db with comments := alistSet db.comments id newComment })

/-- Source: `getComment`. -/
def getComment (db : Database) (id : String) : Option Comment :=
  alistGet db.comments id

/-- Source: `getAllComments` (the source inlines
`Array.from(this.db.comments.values())`). -/
def getAllComments (db : Database) : List Comment :=
  db.comments.map (fun p => p.2)

/-- Source: `getCommentsByTask`: filter by `taskId`, then stable sort ascending by
`createdAt` (JS `Array.prototype.sort` with a `getTime()` comparator). -/
def getCommentsByTask (db : Database) (taskId : String) : List Comment :=
  ((getAllComments db).filter (fun c => c.taskId == taskId)).mergeSort
    (fun a b => a.createdAt ≤ b.createdAt)

/-- Source: `getCommentsByUser`: filter by `userId`, then stable sort ascending by
`createdAt`. -/
def getCommentsByUser (db : Database) (userId : String) : List Comment :=
  ((getAllComments db).filter (fun c => c.userId == userId)).mergeSort
    (fun a b => a.createdAt ≤ b.createdAt)

/-- Source: `{...comment, ...updates, updatedAt: new Date()}`. -/
def applyCommentUpdate (c : Comment) (upd : CommentUpdate) (now : Nat) :
    Comment :=
  { c with
    taskId := upd.taskId.getD c.taskId,
    userId := upd.userId.getD c.userId,
    content := upd.content.getD c.content,
    updatedAt := now }

/-- Source: `updateComment`. -/
def updateComment (db : Database) (id : String) (upd : CommentUpdate)
    (now : Nat) : Option Comment × Database :=
  match alistGet db.comments id with
  | none => (none, db)
  | some c =>
    let updated := applyCommentUpdate c upd now
    (some updated, { db with comments := alistSet db.comments id updated })

/-- Source: `deleteComment`: plain `Map.delete`, no cascade. -/
def deleteComment (db : Database) (id : String) : Bool × Database :=
  let (b, comments) := alistDel db.comments id
  (b, { db with comments := comments })

/-! ## Cascading deletes -/

/-- Source: `deleteTask`: delete every comment returned by `getCommentsByTask(id)`,
then delete the task record itself. -/
def deleteTask (db : Database) (id : String) : Bool × Database :=
  let cs := getCommentsByTask db id
  let comments := cs.foldl (fun acc c => (alistDel acc c.id).2) db.comments
  let (b, tasks) := alistDel db.tasks id
  (b, { db with comments := comments, tasks := tasks })

/-- Source: `deleteProject`: `deleteTask` every task returned by
`getTasksByProject(id)`, then delete the project record itself. -/
def deleteProject (db : Database) (id : String) : Bool × Database :=
  let ts := getTasksByProject db id
  let db1 := ts.foldl (fun d t => (deleteTask d t.id).2) db
  let (b, projects) := alistDel db1.projects id
  (b, { db1 with projects := projects })

/-! ## Tag operations -/

/-- Source: `createTag` (no `updatedAt`). -/
def createTag (db : Database) (input : TagInput) (id : String) (now : Nat) :
    Tag × Database :=
  let newTag : Tag :=
    { id := id, name := input.name, color := input.color, createdAt := now }
  (newTag, { db with tags := alistSet db.tags id newTag })

/-- Source: `getTag`. -/
def getTag (db : Database) (id : String) : Option Tag :=
  alistGet db.tags id

/-- Source: `getAllTags`. -/
def getAllTags (db : Database) : List Tag :=
  db.tags.map (fun p => p.2)

/-- Source: `{...tag, ...updates}` — no `updatedAt` refresh. -/
def applyTagUpdate (g : Tag) (upd : TagUpdate) : Tag :=
  { g with name := upd.name.getD g.name, color := upd.color.getD g.color }

/-- Source: `updateTag`. -/
def updateTag (db : Database) (id : String) (upd : TagUpdate) :
    Option Tag × Database :=
  match alistGet db.tags id with
  | none => (none, db)
  | some g =>
    let updated := applyTagUpdate g upd
    (some updated, { db with tags := alistSet db.tags id updated })

/-- Source: `deleteTag`: for every task returned by `getTasksByTag(id)`, rewrite its
tag list with the id filtered out via `updateTask` (which refreshes
`updatedAt`), then delete the tag record itself. -/
def deleteTag (db : Database) (id : String) (now : Nat) : Bool × Database :=
  let ts := getTasksByTag db id
  let db1 := ts.foldl
    (fun d t =>
      let updatedTags := t.tags.filter (fun tagId => tagId != id)
      (updateTask d t.id { tags := some updatedTags } now).2)
    db
  let (b, tags) := alistDel db1.tags id
  (b, { db1 with tags := tags })

/-! ## Analytics: `getTaskStatistics` -/

/-- Source: `byStatus[k] = (byStatus[k] || 0) + 1` on a JS object in key insertion
order. -/
def recBump (r : List (String × Nat)) (k : String) : List (String × Nat) :=
  alistSet r k ((alistGet r k).getD 0 + 1)

/-- The overdue test of the statistics loop:
`task.dueDate && task.dueDate < now && task.status !== 'done'`. -/
def isOverdueAt (t : Task) (now : Nat) : Bool :=
  match t.dueDate with
  | some d => decide (d < now) && t.status != "done"
  | none => false

/-- One iteration of the `tasks.forEach` loop in `getTaskStatistics`:
bump `byStatus` and `byPriority`, and count the task if overdue. -/
def statsStep (now : Nat)
    (acc : List (String × Nat) × List (String × Nat) × Nat) (t : Task) :
    List (String × Nat) × List (String × Nat) × Nat :=
  (recBump acc.1 t.status, recBump acc.2.1 t.priority,
   if isOverdueAt t now then acc.2.2 + 1 else acc.2.2)

/-- Result record of `getTaskStatistics`; the `Record<string, number>`
mappings are JS objects, kept as association lists in key insertion order. -/
structure TaskStatistics where
  total : Nat
  byStatus : List (String × Nat)
  byPriority : List (String × Nat)
  overdue : Nat
deriving Repr, DecidableEq

/-- Source: `getTaskStatistics`: a single pass over all tasks accumulating the two
mappings and the overdue count. -/
def getTaskStatistics (db : Database) (now : Nat) : TaskStatistics :=
  let tasks := getAllTasks db
  let acc := tasks.foldl (statsStep now) ([], [], 0)
  { total := tasks.length, byStatus := acc.1, byPriority := acc.2.1,
    overdue := acc.2.2 }

/-- Sum of the counts stored in a `Record<string, number>`. -/
def sumCounts (r : List (String × Nat)) : Nat :=
  (r.map (fun p => p.2)).sum

/-! ## Association-list lemmas -/

theorem alistGet_nil {α : Type} (k : String) :
    alistGet ([] : List (String × α)) k = none := rfl

theorem alistGet_cons {α : Type} (p : String × α) (l : List (String × α))
    (k : String) :
    alistGet (p :: l) k = if p.1 == k then some p.2 else alistGet l k := by
  by_cases h : p.1 == k <;> simp [alistGet, List.find?, h]

theorem alistGet_alistSet_self {α : Type} (l : List (String × α)) (k : String)
    (v : α) : alistGet (alistSet l k v) k = some v := by
  induction l with
  | nil => simp [alistSet, alistGet, List.find?]
  | cons p rest ih =>
    by_cases h : p.1 == k <;> simp [alistSet, h, alistGet_cons, ih]

theorem alistGet_alistSet_ne {α : Type} (l : List (String × α)) (k k' : String)
    (v : α) (h : k' ≠ k) :
    alistGet (alistSet l k v) k' = alistGet l k' := by
  induction l with
  | nil =>
    simp [alistSet, alistGet_cons, alistGet_nil]
    intro hk; exact absurd hk.symm h
  | cons p rest ih =>
    by_cases hp : p.1 == k
    · have hpk : p.1 = k := by simpa using hp
      simp only [alistSet, hp, if_true, alistGet_cons]
      rw [if_neg (by simpa using fun hk : k = k' => h hk.symm),
        if_neg (by simp [hpk]; exact fun hk : k = k' => h hk.symm)]
    · simp [alistSet, hp, alistGet_cons, ih]

theorem alistGet_eq_none_iff {α : Type} (l : List (String × α)) (k : String) :
    alistGet l k = none ↔ ∀ p ∈ l, p.1 ≠ k := by
  simp [alistGet, List.find?_eq_none]

theorem alistDel_self {α : Type} (l : List (String × α)) (k : String) :
    alistGet (alistDel l k).2 k = none := by
  rw [alistGet_eq_none_iff]
  intro p hp
  simp [alistDel, List.mem_filter] at hp
  simpa using hp.2

theorem alistDel_of_get_none {α : Type} (l : List (String × α)) (k : String)
    (h : alistGet l k = none) : alistDel l k = (false, l) := by
  rw [alistGet_eq_none_iff] at h
  unfold alistDel
  simp only [Prod.mk.injEq]
  constructor
  · simp only [List.any_eq_false]
    intro p hp
    simpa using h p hp
  · apply List.filter_eq_self.2
    intro p hp
    simpa using h p hp

theorem alistDel_fst_of_get_some {α : Type} (l : List (String × α))
    (k : String) (v : α) (h : alistGet l k = some v) :
    (alistDel l k).1 = true := by
  simp only [alistGet, Option.map_eq_some'] at h
  obtain ⟨p, hp, _⟩ := h
  have hmem := List.mem_of_find?_eq_some hp
  have hk := List.find?_some hp
  simp only [alistDel, List.any_eq_true]
  exact ⟨p, hmem, hk⟩

theorem alistGet_filter_none {α : Type} (l : List (String × α)) (k : String)
    (q : String × α → Bool) (h : alistGet l k = none) :
    alistGet (l.filter q) k = none := by
  rw [alistGet_eq_none_iff] at h ⊢
  intro p hp
  exact h p (List.mem_filter.1 hp).1

theorem alistGet_alistDel_none {α : Type} (l : List (String × α))
    (k k' : String) (h : alistGet l k' = none) :
    alistGet (alistDel l k).2 k' = none :=
  alistGet_filter_none l k' _ h

/-! ## C8: create succeeds, copies fields, stamps both timestamps, and the
created record is immediately retrievable by its id -/

/-- C8: for every entity type, `create(fields)` returns a record whose
caller-supplied fields equal the input, whose `createdAt`/`updatedAt` are
the current time (`Tag` has only `createdAt`), and `get` on the returned
record's id immediately returns that same record. -/
theorem create_roundTrip (db : Database) (id : String) (now : Nat)
    (iu : UserInput) (ip : ProjectInput) (it : TaskInput) (ig : TagInput)
    (ic : CommentInput) :
    ((createUser db iu id now).1.name = iu.name ∧
     (createUser db iu id now).1.email = iu.email ∧
     (createUser db iu id now).1.role = iu.role ∧
     (createUser db iu id now).1.createdAt = now ∧
     (createUser db iu id now).1.updatedAt = now ∧
     getUser (createUser db iu id now).2 (createUser db iu id now).1.id =
       some (createUser db iu id now).1) ∧
    ((createProject db ip id now).1.name = ip.name ∧
     (createProject db ip id now).1.description = ip.description ∧
     (createProject db ip id now).1.ownerId = ip.ownerId ∧
     (createProject db ip id now).1.status = ip.status ∧
     (createProject db ip id now).1.createdAt = now ∧
     (createProject db ip id now).1.updatedAt = now ∧
     getProject (createProject db ip id now).2
       (createProject db ip id now).1.id = some (createProject db ip id now).1) ∧
    ((createTask db it id now).1.title = it.title ∧
     (createTask db it id now).1.description = it.description ∧
     (createTask db it id now).1.projectId = it.projectId ∧
     (createTask db it id now).1.assigneeId = it.assigneeId ∧
     (createTask db it id now).1.status = it.status ∧
     (createTask db it id now).1.priority = it.priority ∧
     (createTask db it id now).1.dueDate = it.dueDate ∧
     (createTask db it id now).1.tags = it.tags ∧
     (createTask db it id now).1.createdAt = now ∧
     (createTask db it id now).1.updatedAt = now ∧
     getTask (createTask db it id now).2 (createTask db it id now).1.id =
       some (createTask db it id now).1) ∧
    ((createTag db ig id now).1.name = ig.name ∧
     (createTag db ig id now).1.color = ig.color ∧
     (createTag db ig id now).1.createdAt = now ∧
     getTag (createTag db ig id now).2 (createTag db ig id now).1.id =
       some (createTag db ig id now).1) ∧
    ((createComment db ic id now).1.taskId = ic.taskId ∧
     (createComment db ic id now).1.userId = ic.userId ∧
     (createComment db ic id now).1.content = ic.content ∧
     (createComment db ic id now).1.createdAt = now ∧
     (createComment db ic id now).1.updatedAt = now ∧
     getComment (createComment db ic id now).2
       (createComment db ic id now).1.id = some (createComment db ic id now).1) := by
  refine ⟨⟨rfl, rfl, rfl, rfl, rfl, ?_⟩, ⟨rfl, rfl, rfl, rfl, rfl, rfl, ?_⟩,
    ⟨rfl, rfl, rfl, rfl, rfl, rfl, rfl, rfl, rfl, rfl, ?_⟩,
    ⟨rfl, rfl, rfl, ?_⟩, ⟨rfl, rfl, rfl, rfl, rfl, ?_⟩⟩ <;>
    simp [createUser, createProject, createTask, createTag, createComment,
      getUser, getProject, getTask, getTag, getComment, alistGet_alistSet_self]

/-! ## C5: update semantics -/

/-- C5: for every entity type, `update(id, partial)` returns absent and
leaves the store unchanged when the id is unknown; when the id is known it
returns the stored record with exactly the fields present in the partial
input replaced, `updatedAt` refreshed (`Tag` has no `updatedAt`), and
`id`/`createdAt`/all omitted fields unchanged, and the store holds that
record under the id. -/
theorem update_spec (db : Database) (id : String) (now : Nat)
    (uu : UserUpdate) (pu : ProjectUpdate) (tu : TaskUpdate) (gu : TagUpdate)
    (cu : CommentUpdate) :
    ((getUser db id = none → updateUser db id uu now = (none, db)) ∧
     (∀ u, getUser db id = some u →
       (updateUser db id uu now).1 = some (applyUserUpdate u uu now) ∧
       getUser (updateUser db id uu now).2 id = some (applyUserUpdate u uu now) ∧
       (applyUserUpdate u uu now).id = u.id ∧
       (applyUserUpdate u uu now).createdAt = u.createdAt ∧
       (applyUserUpdate u uu now).updatedAt = now ∧
       (applyUserUpdate u uu now).name = uu.name.getD u.name ∧
       (applyUserUpdate u uu now).email = uu.email.getD u.email ∧
       (applyUserUpdate u uu now).role = uu.role.getD u.role)) ∧
    ((getProject db id = none → updateProject db id pu now = (none, db)) ∧
     (∀ p, getProject db id = some p →
       (updateProject db id pu now).1 = some (applyProjectUpdate p pu now) ∧
       getProject (updateProject db id pu now).2 id =
         some (applyProjectUpdate p pu now) ∧
       (applyProjectUpdate p pu now).id = p.id ∧
       (applyProjectUpdate p pu now).createdAt = p.createdAt ∧
       (applyProjectUpdate p pu now).updatedAt = now ∧
       (applyProjectUpdate p pu now).name = pu.name.getD p.name ∧
       (applyProjectUpdate p pu now).description =
         pu.description.getD p.description ∧
       (applyProjectUpdate p pu now).ownerId = pu.ownerId.getD p.ownerId ∧
       (applyProjectUpdate p pu now).status = pu.status.getD p.status)) ∧
    ((getTask db id = none → updateTask db id tu now = (none, db)) ∧
     (∀ t, getTask db id = some t →
       (updateTask db id tu now).1 = some (applyTaskUpdate t tu now) ∧
       getTask (updateTask db id tu now).2 id = some (applyTaskUpdate t tu now) ∧
       (applyTaskUpdate t tu now).id = t.id ∧
       (applyTaskUpdate t tu now).createdAt = t.createdAt ∧
       (applyTaskUpdate t tu now).updatedAt = now ∧
       (applyTaskUpdate t tu now).title = tu.title.getD t.title ∧
       (applyTaskUpdate t tu now).description =
         tu.description.getD t.description ∧
       (applyTaskUpdate t tu now).projectId = tu.projectId.getD t.projectId ∧
       (applyTaskUpdate t tu now).assigneeId = tu.assigneeId.getD t.assigneeId ∧
       (applyTaskUpdate t tu now).status = tu.status.getD t.status ∧
       (applyTaskUpdate t tu now).priority = tu.priority.getD t.priority ∧
       (applyTaskUpdate t tu now).dueDate = tu.dueDate.getD t.dueDate ∧
       (applyTaskUpdate t tu now).tags = tu.tags.getD t.tags)) ∧
    ((getTag db id = none → updateTag db id gu = (none, db)) ∧
     (∀ g, getTag db id = some g →
       (updateTag db id gu).1 = some (applyTagUpdate g gu) ∧
       getTag (updateTag db id gu).2 id = some (applyTagUpdate g gu) ∧
       (applyTagUpdate g gu).id = g.id ∧
       (applyTagUpdate g gu).createdAt = g.createdAt ∧
       (applyTagUpdate g gu).name = gu.name.getD g.name ∧
       (applyTagUpdate g gu).color = gu.color.getD g.color)) ∧
    ((getComment db id = none → updateComment db id cu now = (none, db)) ∧
     (∀ cm, getComment db id = some cm →
       (updateComment db id cu now).1 = some (applyCommentUpdate cm cu now) ∧
       getComment (updateComment db id cu now).2 id =
         some (applyCommentUpdate cm cu now) ∧
       (applyCommentUpdate cm cu now).id = cm.id ∧
       (applyCommentUpdate cm cu now).createdAt = cm.createdAt ∧
       (applyCommentUpdate cm cu now).updatedAt = now ∧
       (applyCommentUpdate cm cu now).taskId = cu.taskId.getD cm.taskId ∧
       (applyCommentUpdate cm cu now).userId = cu.userId.getD cm.userId ∧
       (applyCommentUpdate cm cu now).content = cu.content.getD cm.content)) := by
  refine ⟨⟨fun h => ?_, fun u h => ?_⟩, ⟨fun h => ?_, fun p h => ?_⟩,
    ⟨fun h => ?_, fun t h => ?_⟩, ⟨fun h => ?_, fun g h => ?_⟩,
    ⟨fun h => ?_, fun cm h => ?_⟩⟩ <;>
    simp_all [updateUser, updateProject, updateTask, updateTag, updateComment,
      getUser, getProject, getTask, getTag, getComment, applyUserUpdate,
      applyProjectUpdate, applyTaskUpdate, applyTagUpdate, applyCommentUpdate,
      alistGet_alistSet_self]

/-- A user record used in concrete instantiations. -/
def wUser : User :=
  { id := "x", name := "Alice", email := "a", role := "admin",
    createdAt := 1, updatedAt := 1 }

/-- A tag record used in concrete instantiations. -/
def wTag : Tag :=
  { id := "x", name := "frontend", color := "#3b82f6", createdAt := 1 }

/-- A store holding one record with id `"x"` in the users and tags
collections. -/
def wDb : Database :=
  { users := [("x", wUser)], projects := [], tasks := [],
    tags := [("x", wTag)], comments := [] }

/-- C5 witness: `update_spec` instantiated on `wDb` at a known and at an
unknown id. -/
theorem update_spec_witness :
    getUser wDb "x" = some wUser ∧
    (updateUser wDb "x" { name := some "Bob" } 5).1 =
      some (applyUserUpdate wUser { name := some "Bob" } 5) ∧
    getTag wDb "x" = some wTag ∧
    (updateTag wDb "x" { color := some "#fff" }).1 =
      some (applyTagUpdate wTag { color := some "#fff" }) ∧
    getUser wDb "zz" = none ∧
    updateUser wDb "zz" { name := some "Bob" } 5 = (none, wDb) := by
  have h1 := update_spec wDb "x" 5 { name := some "Bob" } {} {}
    { color := some "#fff" } {}
  have h2 := update_spec wDb "zz" 5 { name := some "Bob" } {} {} {} {}
  exact ⟨by decide, (h1.1.2 wUser (by decide)).1, by decide,
    (h1.2.2.2.1.2 wTag (by decide)).1, by decide, h2.1.1 (by decide)⟩

/-! ## C7: comment queries filter exactly and sort ascending by createdAt -/

/-- The sorted-output property shared by both comment queries. -/
theorem mergeSort_createdAt_sorted (l : List Comment) :
    (l.mergeSort (fun a b => a.createdAt ≤ b.createdAt)).Pairwise
      (fun a b => a.createdAt ≤ b.createdAt) := by
  have hs := @List.sorted_mergeSort Comment
    (fun a b => decide (a.createdAt ≤ b.createdAt))
    (by intro a b c hab hbc; simp only [decide_eq_true_eq] at *; omega)
    (by intro a b; simp only [Bool.or_eq_true, decide_eq_true_eq]; omega) l
  exact hs.imp (by simp)

/-- C7: `getCommentsByTask` returns exactly the comments whose `taskId`
matches and `getCommentsByUser` exactly those whose `userId` matches (as a
permutation of the corresponding filter of the comment collection), and
both results are sorted ascending by `createdAt`. -/
theorem comments_queries_spec (db : Database) (tid uid : String) :
    (getCommentsByTask db tid).Perm
      ((getAllComments db).filter (fun c => c.taskId == tid)) ∧
    (getCommentsByTask db tid).Pairwise
      (fun a b => a.createdAt ≤ b.createdAt) ∧
    (getCommentsByUser db uid).Perm
      ((getAllComments db).filter (fun c => c.userId == uid)) ∧
    (getCommentsByUser db uid).Pairwise
      (fun a b => a.createdAt ≤ b.createdAt) := by
  refine ⟨List.mergeSort_perm _ _, mergeSort_createdAt_sorted _,
    List.mergeSort_perm _ _, mergeSort_createdAt_sorted _⟩

/-! ## Statistics lemmas -/

theorem statsFold_fst (now : Nat) (l : List Task)
    (a b : List (String × Nat)) (n : Nat) :
    (l.foldl (statsStep now) (a, b, n)).1 =
      l.foldl (fun r t => recBump r t.status) a := by
  induction l generalizing a b n with
  | nil => rfl
  | cons t l ih => simp [statsStep, ih]

theorem statsFold_snd_fst (now : Nat) (l : List Task)
    (a b : List (String × Nat)) (n : Nat) :
    (l.foldl (statsStep now) (a, b, n)).2.1 =
      l.foldl (fun r t => recBump r t.priority) b := by
  induction l generalizing a b n with
  | nil => rfl
  | cons t l ih => simp [statsStep, ih]

theorem statsFold_snd_snd (now : Nat) (l : List Task)
    (a b : List (String × Nat)) (n : Nat) :
    (l.foldl (statsStep now) (a, b, n)).2.2 =
      l.foldl (fun m t => if isOverdueAt t now then m + 1 else m) n := by
  induction l generalizing a b n with
  | nil => rfl
  | cons t l ih => simp [statsStep, ih]

theorem alistGet_recBump (r : List (String × Nat)) (k s : String) :
    alistGet (recBump r k) s =
      if s = k then some ((alistGet r s).getD 0 + 1) else alistGet r s := by
  by_cases h : s = k
  · subst h; simp [recBump, alistGet_alistSet_self]
  · simp [recBump, h, alistGet_alistSet_ne r k s _ h]

theorem alistGet_fold_recBump (f : Task → String) (l : List Task)
    (r : List (String × Nat)) (s : String) :
    alistGet (l.foldl (fun acc t => recBump acc (f t)) r) s =
      if alistGet r s = none ∧ l.countP (fun t => f t == s) = 0 then none
      else some ((alistGet r s).getD 0 + l.countP (fun t => f t == s)) := by
  induction l generalizing r with
  | nil =>
    cases hr : alistGet r s <;> simp [hr]
  | cons t l ih =>
    simp only [List.foldl_cons, ih, alistGet_recBump, List.countP_cons]
    by_cases ht : f t = s
    · have : (f t == s) = true := by simpa using ht
      cases hr : alistGet r s <;>
        simp [ht.symm, this, hr, Nat.add_comm, Nat.add_assoc, Nat.add_left_comm]
    · have : (f t == s) = false := by simpa using ht
      have hne : s ≠ f t := fun hs => ht hs.symm
      simp [hne, this]

theorem sumCounts_recBump (r : List (String × Nat)) (k : String) :
    sumCounts (recBump r k) = sumCounts r + 1 := by
  induction r with
  | nil => simp [recBump, alistSet, alistGet_nil, sumCounts]
  | cons p rest ih =>
    by_cases h : p.1 == k
    · have hk : p.1 = k := by simpa using h
      simp [recBump, alistGet_cons, alistSet, h, sumCounts, Nat.add_comm,
        Nat.add_assoc, Nat.add_left_comm]
    · have hstep : recBump (p :: rest) k = p :: recBump rest k := by
        simp [recBump, alistGet_cons, h, alistSet]
      rw [hstep]
      simp only [sumCounts, List.map_cons, List.sum_cons] at *
      omega

theorem sumCounts_fold_recBump (f : Task → String) (l : List Task)
    (r : List (String × Nat)) :
    sumCounts (l.foldl (fun acc t => recBump acc (f t)) r) =
      sumCounts r + l.length := by
  induction l generalizing r with
  | nil => simp
  | cons t l ih => simp [ih, sumCounts_recBump]; omega

theorem foldl_count_if (p : Task → Bool) (l : List Task) (n : Nat) :
    l.foldl (fun m t => if p t then m + 1 else m) n = n + l.countP p := by
  induction l generalizing n with
  | nil => simp
  | cons t l ih =>
    by_cases h : p t
    · simp [h, ih, List.countP_cons]
      omega
    · simp [h, ih, List.countP_cons]

/-! ## C6 and C10: taskStatistics -/

/-- C6: `taskStatistics` reports `total` = number of tasks, `overdue` =
number of tasks with a non-null `dueDate` strictly before the current time
and a status other than `done` (so a `done` task past its due date is not
counted), and `byStatus`/`byPriority` contain an entry exactly for the
status/priority values occurring in some task, mapped to the exact count —
no zero-valued entries for absent categories. -/
theorem taskStatistics_spec (db : Database) (now : Nat) :
    (getTaskStatistics db now).total = (getAllTasks db).length ∧
    (getTaskStatistics db now).overdue =
      ((getAllTasks db).filter
        (fun t => t.dueDate.any (fun d => decide (d < now)) &&
          t.status != "done")).length ∧
    (∀ s : String,
      alistGet (getTaskStatistics db now).byStatus s =
        if ((getAllTasks db).filter (fun t => t.status == s)).length = 0
        then none
        else some (((getAllTasks db).filter (fun t => t.status == s)).length)) ∧
    (∀ s : String,
      alistGet (getTaskStatistics db now).byPriority s =
        if ((getAllTasks db).filter (fun t => t.priority == s)).length = 0
        then none
        else some (((getAllTasks db).filter
          (fun t => t.priority == s)).length)) := by
  refine ⟨rfl, ?_, fun s => ?_, fun s => ?_⟩
  · have hproj := statsFold_snd_snd now (getAllTasks db) [] [] 0
    have hcount := foldl_count_if (fun t => isOverdueAt t now)
      (getAllTasks db) 0
    have hpred : ∀ t : Task, isOverdueAt t now =
        (t.dueDate.any (fun d => decide (d < now)) && t.status != "done") := by
      intro t
      rcases hd : t.dueDate with _ | d <;> simp [isOverdueAt, hd, Option.any]
    show (getTaskStatistics db now).overdue = _
    simp only [getTaskStatistics, hproj, hcount, Nat.zero_add]
    rw [List.countP_eq_length_filter]
    exact congrArg List.length (List.filter_congr (fun t _ => hpred t))
  · have hproj := statsFold_fst now (getAllTasks db) [] [] 0
    have hget := alistGet_fold_recBump (fun t => t.status) (getAllTasks db)
      [] s
    simp only [getTaskStatistics, hproj, hget, alistGet_nil, true_and,
      Option.getD_none, Nat.zero_add]
    rw [List.countP_eq_length_filter]
  · have hproj := statsFold_snd_fst now (getAllTasks db) [] [] 0
    have hget := alistGet_fold_recBump (fun t => t.priority) (getAllTasks db)
      [] s
    simp only [getTaskStatistics, hproj, hget, alistGet_nil, true_and,
      Option.getD_none, Nat.zero_add]
    rw [List.countP_eq_length_filter]

/-- C10: in every store state, `total` is the sum of the `byStatus` counts
and of the `byPriority` counts, and `overdue` never exceeds `total`. -/
theorem taskStatistics_invariant (db : Database) (now : Nat) :
    (getTaskStatistics db now).total =
      sumCounts (getTaskStatistics db now).byStatus ∧
    (getTaskStatistics db now).total =
      sumCounts (getTaskStatistics db now).byPriority ∧
    (getTaskStatistics db now).overdue ≤ (getTaskStatistics db now).total := by
  refine ⟨?_, ?_, ?_⟩
  · have hproj := statsFold_fst now (getAllTasks db) [] [] 0
    have hsum := sumCounts_fold_recBump (fun t => t.status) (getAllTasks db) []
    simp only [getTaskStatistics]
    rw [hproj, hsum]
    simp [sumCounts]
  · have hproj := statsFold_snd_fst now (getAllTasks db) [] [] 0
    have hsum := sumCounts_fold_recBump (fun t => t.priority)
      (getAllTasks db) []
    simp only [getTaskStatistics]
    rw [hproj, hsum]
    simp [sumCounts]
  · have hproj := statsFold_snd_snd now (getAllTasks db) [] [] 0
    have hcount := foldl_count_if (fun t => isOverdueAt t now)
      (getAllTasks db) 0
    simp only [getTaskStatistics, hproj, hcount, Nat.zero_add]
    exact List.countP_le_length _

/-! ## C2: delete on an unknown id -/

theorem deleteTask_projects_inv (d : Database) (x : String) :
    (deleteTask d x).2.projects = d.projects := rfl

theorem foldDeleteTask_projects (L : List Task) (d : Database) :
    (L.foldl (fun d t => (deleteTask d t.id).2) d).projects = d.projects := by
  induction L generalizing d with
  | nil => rfl
  | cons t L ih => rw [List.foldl_cons, ih, deleteTask_projects_inv]

theorem updateTask_tags_inv (d : Database) (x : String) (u : TaskUpdate)
    (now : Nat) : (updateTask d x u now).2.tags = d.tags := by
  unfold updateTask
  cases alistGet d.tasks x <;> rfl

theorem foldTagRewrite_tags (G : String) (now : Nat) (L : List Task)
    (d : Database) :
    (L.foldl
      (fun d t =>
        (updateTask d t.id
          { tags := some (t.tags.filter (fun tagId => tagId != G)) } now).2)
      d).tags = d.tags := by
  induction L generalizing d with
  | nil => rfl
  | cons t L ih => rw [List.foldl_cons, ih, updateTask_tags_inv]

/-- A task whose `projectId` dangles: no project with id `"p1"` exists. -/
def cexTask : Task :=
  { id := "t1", title := "a", description := "b", projectId := "p1",
    assigneeId := none, status := "todo", priority := "low", dueDate := none,
    tags := [], createdAt := 0, updatedAt := 0 }

/-- A store with one task referencing the nonexistent project `"p1"`. -/
def cexDb : Database :=
  { users := [], projects := [], tasks := [("t1", cexTask)], tags := [],
    comments := [] }

/-- C2 counterexample: `deleteProject` on the unknown id `"p1"` returns
false, yet the store is NOT left unchanged — the task dangling on that
`projectId` is cascade-deleted. -/
theorem delete_unknown_frame_cex :
    getProject cexDb "p1" = none ∧
    (deleteProject cexDb "p1").1 = false ∧
    (deleteProject cexDb "p1").2 ≠ cexDb := by decide

/-- C2 amended: `delete(id)` on an unknown id returns false and leaves the
entity's own collection unchanged; the whole store is additionally
unchanged unconditionally for User and Comment, and for Project/Task/Tag
whenever no record dangles on the deleted id (no task with that
`projectId`, no comment with that `taskId`, no task whose `tags` contain
the tag id, respectively). -/
theorem delete_unknown_frame (db : Database) (id : String) (now : Nat) :
    (getUser db id = none → deleteUser db id = (false, db)) ∧
    (getComment db id = none → deleteComment db id = (false, db)) ∧
    (getProject db id = none →
      (deleteProject db id).1 = false ∧
      (deleteProject db id).2.projects = db.projects ∧
      (getTasksByProject db id = [] → deleteProject db id = (false, db))) ∧
    (getTask db id = none →
      (deleteTask db id).1 = false ∧
      (deleteTask db id).2.tasks = db.tasks ∧
      (getCommentsByTask db id = [] → deleteTask db id = (false, db))) ∧
    (getTag db id = none →
      (deleteTag db id now).1 = false ∧
      (deleteTag db id now).2.tags = db.tags ∧
      (getTasksByTag db id = [] → deleteTag db id now = (false, db))) := by
  refine ⟨fun h => ?_, fun h => ?_, fun h => ?_, fun h => ?_, fun h => ?_⟩
  · simp [deleteUser, alistDel_of_get_none _ _ h]
  · simp [deleteComment, alistDel_of_get_none _ _ h]
  · have hgp : alistGet ((getTasksByProject db id).foldl
        (fun d t => (deleteTask d t.id).2) db).projects id = none := by
      rw [foldDeleteTask_projects]; exact h
    refine ⟨?_, ?_, fun hnone => ?_⟩
    · simp only [deleteProject, alistDel_of_get_none _ _ hgp]
    · simp only [deleteProject, alistDel_of_get_none _ _ hgp,
        foldDeleteTask_projects]
      rw [alistDel_of_get_none _ _ h]
    · simp only [deleteProject, hnone, List.foldl_nil,
        alistDel_of_get_none _ _ h]
  · refine ⟨?_, ?_, fun hnone => ?_⟩
    · simp only [deleteTask, alistDel_of_get_none _ _ h]
    · simp only [deleteTask, alistDel_of_get_none _ _ h]
    · simp only [deleteTask, hnone, List.foldl_nil,
        alistDel_of_get_none _ _ h]
  · have hgt : alistGet ((getTasksByTag db id).foldl
        (fun d t =>
          (updateTask d t.id
            { tags := some (t.tags.filter (fun tagId => tagId != id)) }
            now).2) db).tags id = none := by
      rw [foldTagRewrite_tags]; exact h
    refine ⟨?_, ?_, fun hnone => ?_⟩
    · simp only [deleteTag, alistDel_of_get_none _ _ hgt]
    · simp only [deleteTag, alistDel_of_get_none _ _ hgt, foldTagRewrite_tags]
      rw [alistDel_of_get_none _ _ h]
    · simp only [deleteTag, hnone, List.foldl_nil,
        alistDel_of_get_none _ _ h]

/-- C2 witness: the amended frame theorem instantiated on `cexDb` at the
unknown id `"zz"`, on which nothing dangles. -/
theorem delete_unknown_frame_witness :
    getProject cexDb "zz" = none ∧ getTasksByProject cexDb "zz" = [] ∧
    deleteProject cexDb "zz" = (false, cexDb) ∧
    getUser cexDb "zz" = none ∧ deleteUser cexDb "zz" = (false, cexDb) := by
  have h := delete_unknown_frame cexDb "zz" 0
  exact ⟨by decide, by decide, (h.2.2.1 (by decide)).2.2 (by decide),
    by decide, h.1 (by decide)⟩

/-! ## The delete_tag tool handler (`src/mcp/entities/tag/tools.ts`) -/

/-- The tag record is removed by `deleteTag` regardless of the rest of the
cascade (the task-rewrite loop never touches the tags collection). -/
theorem getTag_deleteTag_self (db : Database) (G : String) (now : Nat) :
    getTag (deleteTag db G now).2 G = none := by
  simp only [deleteTag, getTag]
  exact alistDel_self _ _

/-- Source: `deleteTag` returns true when the tag exists. -/
theorem deleteTag_fst (db : Database) (G : String) (now : Nat) (g : Tag)
    (h : getTag db G = some g) : (deleteTag db G now).1 = true := by
  simp only [deleteTag]
  apply alistDel_fst_of_get_some _ _ g
  rw [foldTagRewrite_tags]
  exact h

/-- Source: `ElicitResult.action` from the protocol SDK: accept, decline or
cancel. -/
inductive ElicitAction where
  | accept
  | decline
  | cancel
deriving Repr, DecidableEq

/-- The elicitation response seen by the handler: the action, and the value
of `content?.confirm` (`none` when the content or the field is absent). -/
structure ElicitResult where
  action : ElicitAction
  confirm : Option Bool
deriving Repr, DecidableEq

/-- Observable outcome of the `delete_tag` tool handler: the error-flagged
responses, or a non-error JSON payload `{success, message}`. -/
inductive DeleteTagOutcome where
  | notFound
  | deletionFailed
  | payload (success : Bool) (message : String)
deriving Repr, DecidableEq

/-- The `delete_tag` tool callback: look up the tag, elicit confirmation,
and delete only on accept with `confirm === true`; otherwise report a
`success: false` payload distinguishing decline from cancel. -/
def deleteTagToolHandler (db : Database) (tagId : String)
    (res : ElicitResult) (now : Nat) : DeleteTagOutcome × Database :=
  match getTag db tagId with
  | none => (.notFound, db)
  | some tag =>
    if res.action = ElicitAction.accept ∧ res.confirm = some true then
      let (deleted, db2) := deleteTag db tagId now
      if deleted then
        (.payload true ("Tag \"" ++ tag.name ++ "\" deleted successfully"),
         db2)
      else
        (.deletionFailed, db2)
    else
      let message :=
        if res.action = ElicitAction.decline then
          "Tag deletion declined by user"
        else
          "Tag deletion cancelled"
      (.payload false message, db)

/-- C4: for an existing tag, accept-with-confirm-true deletes the tag and
returns a success payload; decline and cancel leave the store untouched
(the tag is still retrievable) and return a non-error `success: false`
payload whose message distinguishes the two cases. -/
theorem deleteTagHandler_spec (db : Database) (tagId : String)
    (res : ElicitResult) (now : Nat) (tag : Tag)
    (h : getTag db tagId = some tag) :
    (res.action = ElicitAction.accept → res.confirm = some true →
      (deleteTagToolHandler db tagId res now).1 =
        DeleteTagOutcome.payload true
          ("Tag \"" ++ tag.name ++ "\" deleted successfully") ∧
      getTag (deleteTagToolHandler db tagId res now).2 tagId = none) ∧
    (res.action = ElicitAction.decline →
      deleteTagToolHandler db tagId res now =
        (DeleteTagOutcome.payload false "Tag deletion declined by user", db)) ∧
    (res.action = ElicitAction.cancel →
      deleteTagToolHandler db tagId res now =
        (DeleteTagOutcome.payload false "Tag deletion cancelled", db)) ∧
    "Tag deletion declined by user" ≠ "Tag deletion cancelled" := by
  refine ⟨fun ha hc => ?_, fun hd => ?_, fun hx => ?_, by decide⟩
  · have hfst := deleteTag_fst db tagId now tag h
    constructor
    · simp only [deleteTagToolHandler, h, ha, hc, and_self, if_true]
      simp [hfst]
    · simp only [deleteTagToolHandler, h, ha, hc, and_self, if_true]
      simp [hfst, getTag_deleteTag_self]
  · simp [deleteTagToolHandler, h, hd]
  · simp [deleteTagToolHandler, h, hx]

/-- C4 witness: `deleteTagHandler_spec` on `wDb`, whose tags collection
holds `wTag` under id `"x"`, for an accepting and a declining response. -/
theorem deleteTagHandler_spec_witness :
    getTag wDb "x" = some wTag ∧
    (deleteTagToolHandler wDb "x" ⟨ElicitAction.accept, some true⟩ 3).1 =
      DeleteTagOutcome.payload true
        ("Tag \"" ++ wTag.name ++ "\" deleted successfully") ∧
    getTag (deleteTagToolHandler wDb "x"
      ⟨ElicitAction.accept, some true⟩ 3).2 "x" = none ∧
    deleteTagToolHandler wDb "x" ⟨ElicitAction.decline, none⟩ 3 =
      (DeleteTagOutcome.payload false "Tag deletion declined by user", wDb) := by
  have h1 := deleteTagHandler_spec wDb "x" ⟨ElicitAction.accept, some true⟩ 3
    wTag (by decide)
  have h2 := deleteTagHandler_spec wDb "x" ⟨ElicitAction.decline, none⟩ 3
    wTag (by decide)
  exact ⟨by decide, (h1.1 rfl rfl).1, (h1.1 rfl rfl).2, h2.2.1 rfl⟩

/-- C9: accept with a `confirm` value other than `true` performs no
mutation and reports the same payload as an explicit cancel. -/
theorem deleteTagHandler_accept_without_confirm (db : Database)
    (tagId : String) (res : ElicitResult) (now : Nat) (tag : Tag)
    (h : getTag db tagId = some tag) (ha : res.action = ElicitAction.accept)
    (hc : res.confirm ≠ some true) :
    deleteTagToolHandler db tagId res now =
      (DeleteTagOutcome.payload false "Tag deletion cancelled", db) := by
  simp [deleteTagToolHandler, h, ha, hc]

/-- C9 witness: accept with `confirm = false` on `wDb` leaves the store
unchanged and reports the cancelled payload. -/
theorem deleteTagHandler_accept_without_confirm_witness :
    getTag wDb "x" = some wTag ∧
    deleteTagToolHandler wDb "x" ⟨ElicitAction.accept, some false⟩ 3 =
      (DeleteTagOutcome.payload false "Tag deletion cancelled", wDb) :=
  ⟨by decide,
   deleteTagHandler_accept_without_confirm wDb "x"
     ⟨ElicitAction.accept, some false⟩ 3 wTag (by decide) rfl (by decide)⟩

/-! ## C1: project deletion cascades to tasks and their comments -/

theorem alistGet_mem {α : Type} (l : List (String × α)) (k : String) (v : α)
    (h : alistGet l k = some v) : (k, v) ∈ l := by
  simp only [alistGet, Option.map_eq_some'] at h
  obtain ⟨p, hp, hv⟩ := h
  have hmem := List.mem_of_find?_eq_some hp
  have hk : p.1 = k := by simpa using List.find?_some hp
  have : p = (k, v) := by
    cases p; simp_all
  rw [this] at hmem
  exact hmem

theorem alistGet_unique {α : Type} (l : List (String × α)) (k : String)
    (v : α) (hnd : (l.map (fun p => p.1)).Nodup)
    (h : alistGet l k = some v) :
    ∀ p ∈ l, p.1 = k → p.2 = v := by
  induction l with
  | nil => simp [alistGet] at h
  | cons q rest ih =>
    simp only [List.map_cons, List.nodup_cons] at hnd
    rw [alistGet_cons] at h
    intro p hp hpk
    by_cases hq : q.1 == k
    · simp only [hq, if_true, Option.some.injEq] at h
      rcases List.mem_cons.1 hp with hpq | hpr
      · rw [hpq, h]
      · exfalso
        apply hnd.1
        have hqk : q.1 = k := by simpa using hq
        rw [hqk, ← hpk]
        exact List.mem_map_of_mem _ hpr
    · simp only [hq, Bool.false_eq_true, if_false] at h
      rcases List.mem_cons.1 hp with hpq | hpr
      · exfalso
        rw [← hpq] at hq
        simp [hpk] at hq
      · exact ih hnd.2 h p hpr hpk

theorem alistGet_foldDel_none {α β : Type} (g : β → String) (L : List β)
    (l : List (String × α)) (k : String) (h : alistGet l k = none) :
    alistGet (L.foldl (fun acc b => (alistDel acc (g b)).2) l) k = none := by
  induction L generalizing l with
  | nil => exact h
  | cons b L ih => exact ih _ (alistGet_alistDel_none _ _ _ h)

theorem alistGet_foldDel_mem {α β : Type} (g : β → String) (L : List β)
    (l : List (String × α)) (b : β) (hb : b ∈ L) :
    alistGet (L.foldl (fun acc x => (alistDel acc (g x)).2) l) (g b) = none := by
  induction L generalizing l with
  | nil => cases hb
  | cons b' L ih =>
    rcases List.mem_cons.1 hb with hbe | hbL
    · subst hbe
      exact alistGet_foldDel_none g L _ _ (alistDel_self l (g b))
    · exact ih _ hbL

theorem foldDel_subset {α β : Type} (g : β → String) (L : List β)
    (l : List (String × α)) :
    ∀ p ∈ L.foldl (fun acc b => (alistDel acc (g b)).2) l, p ∈ l := by
  induction L generalizing l with
  | nil => exact fun p hp => hp
  | cons b L ih =>
    intro p hp
    have := ih _ p hp
    exact (List.mem_filter.1 this).1

theorem deleteTask_tasks_eq (d : Database) (x : String) :
    (deleteTask d x).2.tasks = (alistDel d.tasks x).2 := rfl

theorem deleteTask_comments_eq (d : Database) (x : String) :
    (deleteTask d x).2.comments =
      (getCommentsByTask d x).foldl (fun acc c => (alistDel acc c.id).2)
        d.comments := rfl

theorem getTask_deleteTask_self (d : Database) (x : String) :
    getTask (deleteTask d x).2 x = none := by
  show alistGet (alistDel d.tasks x).2 x = none
  exact alistDel_self _ _

theorem getTask_deleteTask_none (d : Database) (x tid : String)
    (h : getTask d tid = none) : getTask (deleteTask d x).2 tid = none := by
  show alistGet (alistDel d.tasks x).2 tid = none
  exact alistGet_alistDel_none _ _ _ h

theorem getComment_deleteTask_none (d : Database) (x cid : String)
    (h : getComment d cid = none) :
    getComment (deleteTask d x).2 cid = none := by
  show alistGet _ cid = none
  rw [deleteTask_comments_eq]
  exact alistGet_foldDel_none _ _ _ _ h

theorem deleteTask_comments_subset (d : Database) (x : String) :
    ∀ p ∈ (deleteTask d x).2.comments, p ∈ d.comments := by
  rw [deleteTask_comments_eq]
  exact foldDel_subset _ _ _

theorem deleteTask_comment_kill (d : Database) (x : String)
    (hk : ∀ p ∈ d.comments, p.1 = p.2.id) (cid : String) (cm : Comment)
    (h : getComment d cid = some cm) (hcx : cm.taskId = x) :
    getComment (deleteTask d x).2 cid = none := by
  have hmem := alistGet_mem _ _ _ h
  have hid : cid = cm.id := hk (cid, cm) hmem
  have hval : cm ∈ getAllComments d :=
    List.mem_map_of_mem (fun p => p.2) hmem
  have hfilt : cm ∈ (getAllComments d).filter (fun c => c.taskId == x) := by
    rw [List.mem_filter]
    exact ⟨hval, by simp [hcx]⟩
  have hsorted : cm ∈ getCommentsByTask d x :=
    ((List.mergeSort_perm _ _).mem_iff).2 hfilt
  show alistGet _ cid = none
  rw [deleteTask_comments_eq, hid]
  exact alistGet_foldDel_mem (fun c : Comment => c.id) _ _ cm hsorted

theorem foldDeleteTask_task_none (L : List Task) (tid : String) :
    ∀ d : Database, getTask d tid = none →
      getTask (L.foldl (fun d t => (deleteTask d t.id).2) d) tid = none := by
  induction L with
  | nil => exact fun d h => h
  | cons t' L ih =>
    intro d h
    exact ih _ (getTask_deleteTask_none d t'.id tid h)

theorem foldDeleteTask_task_mem (L : List Task) (t : Task) (ht : t ∈ L) :
    ∀ d : Database,
      getTask (L.foldl (fun d t => (deleteTask d t.id).2) d) t.id = none := by
  induction L with
  | nil => cases ht
  | cons t' L ih =>
    intro d
    rcases List.mem_cons.1 ht with he | hL
    · subst he
      exact foldDeleteTask_task_none L t.id _ (getTask_deleteTask_self d t.id)
    · exact ih hL _

theorem foldDeleteTask_comment_none (L : List Task) (cid : String) :
    ∀ d : Database, getComment d cid = none →
      getComment (L.foldl (fun d t => (deleteTask d t.id).2) d) cid = none := by
  induction L with
  | nil => exact fun d h => h
  | cons t' L ih =>
    intro d h
    exact ih _ (getComment_deleteTask_none d t'.id cid h)

theorem foldDeleteTask_comment_kill (L : List Task) (tkey cid : String) :
    ∀ d : Database, (∃ t ∈ L, t.id = tkey) →
      (∀ p ∈ d.comments, p.1 = p.2.id) →
      (∀ p ∈ d.comments, p.1 = cid → p.2.taskId = tkey) →
      getComment (L.foldl (fun d t => (deleteTask d t.id).2) d) cid = none := by
  induction L with
  | nil =>
    intro d ht _ _
    obtain ⟨t, htm, _⟩ := ht
    cases htm
  | cons t' L ih =>
    intro d ht hk hAll
    rw [List.foldl_cons]
    obtain ⟨t, htmem, htid⟩ := ht
    rcases List.mem_cons.1 htmem with he | hL
    · cases hcm : getComment d cid with
      | none =>
        exact foldDeleteTask_comment_none L cid _
          (getComment_deleteTask_none d t'.id cid hcm)
      | some cm =>
        have hcx : cm.taskId = t'.id := by
          rw [he] at htid
          rw [htid]
          exact hAll (cid, cm) (alistGet_mem _ _ _ hcm) rfl
        exact foldDeleteTask_comment_none L cid _
          (deleteTask_comment_kill d t'.id hk cid cm hcm hcx)
    · refine ih _ ⟨t, hL, htid⟩ ?_ ?_
      · exact fun p hp => hk p (deleteTask_comments_subset d t'.id p hp)
      · exact fun p hp hpk =>
          hAll p (deleteTask_comments_subset d t'.id p hp) hpk

theorem deleteProject_tasks_eq (db : Database) (P : String) :
    (deleteProject db P).2.tasks =
      ((getTasksByProject db P).foldl
        (fun d t => (deleteTask d t.id).2) db).tasks := rfl

theorem deleteProject_comments_eq (db : Database) (P : String) :
    (deleteProject db P).2.comments =
      ((getTasksByProject db P).foldl
        (fun d t => (deleteTask d t.id).2) db).comments := rfl

/-- C1: `deleteProject(P)` deletes every task whose `projectId` is `P`,
every comment attached to such a task, and the project record itself:
afterwards `get` on the project, on any such task, and on any such comment
returns absent. -/
theorem deleteProject_cascade (db : Database) (P : String) (hwf : WF db) :
    getProject (deleteProject db P).2 P = none ∧
    (∀ tid t, getTask db tid = some t → t.projectId = P →
      getTask (deleteProject db P).2 tid = none) ∧
    (∀ tid t cid cm, getTask db tid = some t → t.projectId = P →
      getComment db cid = some cm → cm.taskId = tid →
      getComment (deleteProject db P).2 cid = none) := by
  obtain ⟨-, -, -, -, -, htaskKeys, -, -, hcommentNodup, hcommentKeys⟩ := hwf
  refine ⟨?_, ?_, ?_⟩
  · show alistGet (alistDel _ P).2 P = none
    exact alistDel_self _ _
  · intro tid t hget hproj
    have hmem := alistGet_mem _ _ _ hget
    have hid : tid = t.id := htaskKeys (tid, t) hmem
    have hfilt : t ∈ getTasksByProject db P := by
      simp only [getTasksByProject, getAllTasks]
      rw [List.mem_filter]
      exact ⟨List.mem_map_of_mem (fun p => p.2) hmem, by simp [hproj]⟩
    show alistGet (deleteProject db P).2.tasks tid = none
    rw [deleteProject_tasks_eq, hid]
    exact foldDeleteTask_task_mem _ t hfilt db
  · intro tid t cid cm hget hproj hgetc htask
    have hmem := alistGet_mem _ _ _ hget
    have hid : tid = t.id := htaskKeys (tid, t) hmem
    have hfilt : t ∈ getTasksByProject db P := by
      simp only [getTasksByProject, getAllTasks]
      rw [List.mem_filter]
      exact ⟨List.mem_map_of_mem (fun p => p.2) hmem, by simp [hproj]⟩
    show alistGet (deleteProject db P).2.comments cid = none
    rw [deleteProject_comments_eq]
    refine foldDeleteTask_comment_kill _ tid cid db ⟨t, hfilt, hid.symm⟩
      hcommentKeys ?_
    intro p hp hpk
    have hval : p.2 = cm := alistGet_unique _ _ _ hcommentNodup hgetc p hp hpk
    rw [hval, htask]

/-- Concrete project for the cascade instantiation. -/
def cascProject : Project :=
  { id := "p1", name := "Web", description := "d", ownerId := "u1",
    status := "active", createdAt := 0, updatedAt := 0 }

/-- Concrete task in project `"p1"`. -/
def cascTask : Task :=
  { id := "t1", title := "ui", description := "mockups", projectId := "p1",
    assigneeId := some "u1", status := "in-progress", priority := "high",
    dueDate := some 10, tags := [], createdAt := 2, updatedAt := 2 }

/-- Concrete comment on task `"t1"`. -/
def cascComment : Comment :=
  { id := "c1", taskId := "t1", userId := "u1", content := "hi",
    createdAt := 3, updatedAt := 3 }

/-- A store holding the project, its task and the task's comment. -/
def cascDb : Database :=
  { users := [], projects := [("p1", cascProject)],
    tasks := [("t1", cascTask)], tags := [],
    comments := [("c1", cascComment)] }

/-- C1 witness: deleting project `"p1"` from `cascDb` removes the project,
its task `"t1"` and that task's comment `"c1"`. -/
theorem deleteProject_cascade_witness :
    WF cascDb ∧
    getProject (deleteProject cascDb "p1").2 "p1" = none ∧
    getTask (deleteProject cascDb "p1").2 "t1" = none ∧
    getComment (deleteProject cascDb "p1").2 "c1" = none := by
  have h := deleteProject_cascade cascDb "p1" (by decide)
  exact ⟨by decide, h.1,
    h.2.1 "t1" cascTask (by decide) (by decide),
    h.2.2 "t1" cascTask "c1" cascComment (by decide) (by decide) (by decide)
      (by decide)⟩

/-! ## C3: tag deletion rewrites referencing tasks without deleting them -/

theorem updateTask_get_other (d : Database) (x tid : String) (u : TaskUpdate)
    (now : Nat) (h : tid ≠ x) :
    getTask (updateTask d x u now).2 tid = getTask d tid := by
  unfold updateTask
  cases hx : alistGet d.tasks x with
  | none => rfl
  | some t =>
    show alistGet (alistSet d.tasks x _) tid = _
    exact alistGet_alistSet_ne _ _ _ _ h

theorem updateTask_get_self (d : Database) (x : String) (u : TaskUpdate)
    (now : Nat) (t : Task) (h : getTask d x = some t) :
    getTask (updateTask d x u now).2 x = some (applyTaskUpdate t u now) := by
  unfold updateTask
  rw [show alistGet d.tasks x = some t from h]
  exact alistGet_alistSet_self _ _ _

theorem nodupKeys_values_pairwise (l : List (String × Task))
    (hnd : (l.map (fun p => p.1)).Nodup) (hk : ∀ p ∈ l, p.1 = p.2.id) :
    (l.map (fun p => p.2)).Pairwise (fun a b => a.id ≠ b.id) := by
  rw [List.pairwise_map]
  have h1 : l.Pairwise (fun p q => p.1 ≠ q.1) := by
    rw [List.Nodup, List.pairwise_map] at hnd
    exact hnd
  refine h1.imp_of_mem ?_
  intro p q hp hq hne
  rw [← hk p hp, ← hk q hq]
  exact hne

theorem foldTagRewrite_get_preserve (G : String) (now : Nat) (L : List Task)
    (tid : String) :
    ∀ d : Database, (∀ t' ∈ L, t'.id ≠ tid) →
      getTask (L.foldl
        (fun d t =>
          (updateTask d t.id
            { tags := some (t.tags.filter (fun tagId => tagId != G)) }
            now).2) d) tid = getTask d tid := by
  induction L with
  | nil => exact fun d _ => rfl
  | cons t' L ih =>
    intro d hne
    rw [List.foldl_cons, ih _ (fun x hx => hne x (List.mem_cons_of_mem _ hx)),
      updateTask_get_other]
    exact fun he => hne t' (List.mem_cons_self _ _) he.symm

theorem foldTagRewrite_get (G : String) (now : Nat) (L : List Task)
    (t : Task) (ht : t ∈ L) :
    ∀ d : Database, L.Pairwise (fun a b => a.id ≠ b.id) →
      getTask d t.id = some t →
      getTask (L.foldl
        (fun d t =>
          (updateTask d t.id
            { tags := some (t.tags.filter (fun tagId => tagId != G)) }
            now).2) d) t.id =
        some { t with
               tags := t.tags.filter (fun tagId => tagId != G)
               updatedAt := now } := by
  induction L with
  | nil => cases ht
  | cons t' L ih =>
    intro d hpw hget
    rw [List.foldl_cons]
    rcases List.mem_cons.1 ht with he | hL
    · subst he
      rw [foldTagRewrite_get_preserve G now L t.id _
        (fun x hx => ((List.pairwise_cons.1 hpw).1 x hx).symm)]
      exact updateTask_get_self d t.id _ now t hget
    · refine ih hL _ (List.pairwise_cons.1 hpw).2 ?_
      rw [updateTask_get_other]
      · exact hget
      · exact fun he => (List.pairwise_cons.1 hpw).1 t hL he.symm

theorem deleteTag_tasks_eq (db : Database) (G : String) (now : Nat) :
    (deleteTag db G now).2.tasks =
      ((getTasksByTag db G).foldl
        (fun d t =>
          (updateTask d t.id
            { tags := some (t.tags.filter (fun tagId => tagId != G)) }
            now).2) db).tasks := rfl

/-- C3: `deleteTag(G)` removes the tag record, and every task `T` whose
`tags` contain `G` remains present with all fields unchanged except that
`tags` has `G` filtered out and `updatedAt` is refreshed to the current
time; the task is not deleted. -/
theorem deleteTag_cascade (db : Database) (G : String) (now : Nat)
    (hwf : WF db) :
    getTag (deleteTag db G now).2 G = none ∧
    (∀ tid t, getTask db tid = some t → G ∈ t.tags →
      getTask (deleteTag db G now).2 tid =
        some { t with
               tags := t.tags.filter (fun tagId => tagId != G)
               updatedAt := now } ∧
      G ∉ t.tags.filter (fun tagId => tagId != G)) := by
  obtain ⟨-, -, -, -, htaskNodup, htaskKeys, -, -, -, -⟩ := hwf
  refine ⟨getTag_deleteTag_self db G now, ?_⟩
  intro tid t hget htags
  have hmem := alistGet_mem _ _ _ hget
  have hid : tid = t.id := htaskKeys (tid, t) hmem
  have hfilt : t ∈ getTasksByTag db G := by
    simp only [getTasksByTag, getAllTasks]
    rw [List.mem_filter]
    refine ⟨List.mem_map_of_mem (fun p => p.2) hmem, ?_⟩
    simpa using htags
  have hpw : (getTasksByTag db G).Pairwise (fun a b => a.id ≠ b.id) := by
    have hvals := nodupKeys_values_pairwise db.tasks htaskNodup htaskKeys
    exact hvals.sublist (List.filter_sublist _)
  constructor
  · show alistGet (deleteTag db G now).2.tasks tid = _
    rw [deleteTag_tasks_eq, hid]
    refine foldTagRewrite_get G now _ t hfilt db hpw ?_
    rw [← hid]
    exact hget
  · simp

/-- Concrete task referencing tags `"g1"` and `"g2"`. -/
def tagTask : Task :=
  { id := "t2", title := "fix", description := "bug", projectId := "p1",
    assigneeId := none, status := "todo", priority := "urgent",
    dueDate := none, tags := ["g1", "g2"], createdAt := 1, updatedAt := 1 }

/-- A store holding tag `"g1"` and the task that references it. -/
def tagDb : Database :=
  { users := [], projects := [], tasks := [("t2", tagTask)],
    tags := [("g1", { id := "g1", name := "frontend", color := "#3b82f6",
                      createdAt := 0 })],
    comments := [] }

/-- C3 witness: deleting tag `"g1"` from `tagDb` removes the tag and
rewrites task `"t2"` to tags `["g2"]` with `updatedAt` refreshed. -/
theorem deleteTag_cascade_witness :
    WF tagDb ∧ "g1" ∈ tagTask.tags ∧
    getTag (deleteTag tagDb "g1" 9).2 "g1" = none ∧
    getTask (deleteTag tagDb "g1" 9).2 "t2" =
      some { tagTask with
             tags := tagTask.tags.filter (fun tagId => tagId != "g1")
             updatedAt := 9 } := by
  have h := deleteTag_cascade tagDb "g1" 9 (by decide)
  exact ⟨by decide, by decide, h.1,
    (h.2 "t2" tagTask (by decide) (by decide)).1⟩

end TaskStore
